import Mathlib

/-!
Verification of the dialogue-state core of the LlamAle beer-dialogue system.

The embedding translates `src/components/dm.py` (slot-state registry and
decision engine) and `src/dataset/dataset.py` (catalog query engine) into
executable Lean definitions.  Python dictionaries are modelled as
insertion-ordered association lists, Python scalar values as the inductive
type `PyVal` (with `PyVal.none` playing the role of Python's `None`), and
pandas data frames as lists of `Row` records.  Floating-point similarity
scores are modelled as rationals; the thresholds manipulated by the adaptive
loops are integer-valued throughout execution and are modelled as `Int`.
-/

namespace LlamAle

/-- Python scalar values as they occur in slot mappings and proposals.
`PyVal.none` models Python's `None`; strings and numbers are the scalars the
NLU layer produces. -/
inductive PyVal where
  | none
  | str (s : String)
  | num (q : ℚ)
  deriving DecidableEq, Repr

/-- Python truthiness (`not parameter`, `if comment:`) restricted to the
scalars of `PyVal`: `None`, the empty string and the number 0 are falsy. -/
def pyFalsy : PyVal → Bool
  | .none => true
  | .str s => s = ""
  | .num q => q = 0

/-- Python's `\s` whitespace class (ASCII part). -/
def pyWhitespace (c : Char) : Bool :=
  c = ' ' ∨ c = '\t' ∨ c = '\n' ∨ c = '\r' ∨ c = '\x0b' ∨ c = '\x0c'

/-- Python's `\w` word-character class, restricted to ASCII (the catalog and
every claim use ASCII text). -/
def isWordChar (c : Char) : Bool :=
  c.isAlphanum || c = '_'

/-- Models `str.lower()` (character-wise, via the character list; the core
`String.toLower` is avoided because its recursor does not reduce inside the
kernel). -/
def strLower (s : String) : String :=
  String.mk (s.toList.map Char.toLower)

/-- Models `str.strip()`: removes leading and trailing whitespace. -/
def strTrim (s : String) : String :=
  String.mk (((s.toList.dropWhile pyWhitespace).reverse.dropWhile pyWhitespace).reverse)

theorem length_dropWhile_le_self {α : Type} (p : α → Bool) (l : List α) :
    (l.dropWhile p).length ≤ l.length := by
  induction l with
  | nil => simp
  | cons a l ih =>
      rw [List.dropWhile_cons]
      by_cases h : p a
      · simp only [h, if_true]
        exact Nat.le_succ_of_le ih
      · simp [h]

/-- Maximal runs of characters on which `p` is false (the words of a string
for a separator class `p`). -/
def wordsBy (p : Char → Bool) : List Char → List (List Char)
  | [] => []
  | c :: rest =>
      if p c then wordsBy p rest
      else (c :: rest.takeWhile (fun x => ¬ p x)) ::
        wordsBy p (rest.dropWhile (fun x => ¬ p x))
termination_by l => l.length
decreasing_by
  · exact Nat.lt_succ_of_le (Nat.le_refl _)
  · exact Nat.lt_succ_of_le (length_dropWhile_le_self _ _)

/-- Joins character-list words with single spaces. -/
def joinSpace : List (List Char) → List Char
  | [] => []
  | [w] => w
  | w :: ws => w ++ ' ' :: joinSpace ws

/-- Models `str(v).lower()` for a `PyVal`.  `str(None) = "None"` lowers to
`"none"`.  For numbers the exact rendering is irrelevant to every use site
(the result is only compared against `"none"`/`"null"`, which no numeric
rendering equals); we prefix the digits with `"#"` so that no numeric value
can collide with a sentinel string. -/
def pyStrLower : PyVal → String
  | .none => "none"
  | .str s => strLower s
  | .num q => "#" ++ toString q

/-- Insertion-ordered association list modelling a Python `dict` with string
keys, as used for `StateTracker.slots` in `src/components/dm.py`. -/
abbrev Slots := List (String × PyVal)

/-- Python dict assignment `d[k] = v`: overwrite in place when the key is
present, append otherwise (Python dicts preserve insertion order). -/
def dictSet (d : Slots) (k : String) (v : PyVal) : Slots :=
  if (d.map Prod.fst).contains k then
    d.map (fun p => if p.1 = k then (k, v) else p)
  else
    d ++ [(k, v)]

/-- Python `d.get(k)`: `None` when the key is missing.  Since slot values are
`PyVal` and an unset slot is stored as `PyVal.none`, a missing key and an
unset slot both yield `PyVal.none`, exactly as in the Python code where both
are `None`. -/
def slotsGet (d : Slots) (k : String) : PyVal :=
  ((d.find? (fun p => p.1 = k)).map Prod.snd).getD PyVal.none

/-- Python `state.slots.get(parameter)` where `parameter` is an arbitrary
`PyVal`: only a string key can be present in the slots dict. -/
def slotsGetVal (d : Slots) (p : PyVal) : PyVal :=
  match p with
  | .str s => slotsGet d s
  | _ => PyVal.none

/-- The static intent-to-slot-set table of `StateTracker._initialize_slots`
(`src/components/dm.py`, lines 22-29); `intent_slots.get(intent, [])` yields
`[]` for unknown intents, which coincides with the `out_of_context` entry. -/
def intentSlots : String → List String
  | "get_beer_recommendation" => ["style", "abv", "ibu", "rating"]
  | "get_beer_info" => ["name", "brewery"]
  | "list_beers_by_brewery" => ["brewery"]
  | "get_top_rated" => ["style"]
  | "rate_beer" => ["name", "rating", "comment"]
  | _ => []

/-- `StateTracker._initialize_slots`: every statically defined slot starts
unset (`{field: None for field in fields}`). -/
def initializeSlots (intent : String) : Slots :=
  (intentSlots intent).map (fun f => (f, PyVal.none))

/-- The state of one active intent (`class StateTracker`). -/
structure StateTracker where
  intent : String
  slots : Slots
  deriving DecidableEq, Repr

/-- `StateTracker.__init__`. -/
def StateTracker.init (intent : String) : StateTracker :=
  ⟨intent, initializeSlots intent⟩

/-- The slot-write normalization of `StateTracker.update`
(`self.slots[slot] = None if val in ["null", None] else val`). -/
def normalizeVal (v : PyVal) : PyVal :=
  if v = PyVal.str "null" ∨ v = PyVal.none then PyVal.none else v

/-- One observation as consumed by `StateTracker.update`: the update iterates
over the dict-valued entries of the NLU output and writes each nested
`(slot, value)` pair in order; we model the observation as that ordered list
of slot writes. -/
abbrev Observation := List (String × PyVal)

/-- `StateTracker.update` (`src/components/dm.py`, lines 34-39): each slot
write is normalized (`"null"`/`None` become unset) and assigned into the
slots dict. -/
def StateTracker.update (st : StateTracker) (obs : Observation) : StateTracker :=
  ⟨st.intent, obs.foldl (fun d kv => dictSet d kv.1 (normalizeVal kv.2)) st.slots⟩

/-- The canonical serialized view produced by `StateTracker.serialize`: the
intent together with every slot, unset slots rendered as the string
`"null"`.  We model the JSON object rather than its printed text. -/
structure Serialized where
  intent : String
  slots : Slots
  deriving DecidableEq, Repr

/-- `StateTracker.serialize` (`src/components/dm.py`, lines 41-43):
`safe = {k: (v if v is not None else "null") for k, v in self.slots.items()}`. -/
def StateTracker.serialize (st : StateTracker) : Serialized :=
  ⟨st.intent, st.slots.map (fun p => (p.1, if p.2 = PyVal.none then PyVal.str "null" else p.2))⟩

/-- An action proposal parsed from the collaborator reply; `nba.get("action")`
and `nba.get("parameter")` yield `None` when a key is missing, which
`PyVal.none` models. -/
structure Proposal where
  action : PyVal
  parameter : PyVal
  deriving DecidableEq, Repr

/-- `DM._check_response_validity` (`src/components/dm.py`, lines 144-164),
translated clause by clause. -/
def checkResponseValidity (nba : Proposal) (state : StateTracker) : Bool :=
  if ¬ (nba.action = PyVal.str "request_info" ∨ nba.action = PyVal.str "confirmation") then
    false
  else if pyFalsy nba.parameter ∨ pyStrLower nba.parameter = "none" ∨ pyStrLower nba.parameter = "null" then
    false
  else if nba.action = PyVal.str "request_info" ∧ slotsGetVal state.slots nba.parameter ≠ PyVal.none then
    false
  else
    let fullSlots := state.slots.all (fun p => p.2 ≠ PyVal.none)
    if fullSlots ∧ nba.action ≠ PyVal.str "confirmation" then
      false
    else if ¬ fullSlots ∧ nba.action ≠ PyVal.str "request_info" then
      false
    else if state.intent = "get_beer_info" then
      decide ((nba.parameter = PyVal.str "name" ∧ nba.action = PyVal.str "request_info") ∨
        (slotsGet state.slots "name" ≠ PyVal.none ∧ nba.action = PyVal.str "confirmation"))
    else
      true

/-- The `data` payload attached to an emitted action in `DM.__call__`:
the query-engine payload of a successful confirmation, the serialized state
attached to a downgraded `check_info`, the `f"intent: {...}"` string of a
`request_info`, or — when an action other than `confirmation`/`request_info`
reaches the dispatch, which validation prevents — the stale/unbound Python
variable `result`, modelled by `undefinedResult`. -/
inductive DMData where
  | payload (r : String)
  | serialized (s : Serialized)
  | intentLabel (s : String)
  | undefinedResult
  deriving DecidableEq, Repr

/-- One emitted action record `{"action": ..., "parameter": ..., "data": ...}`
of `DM.__call__`. -/
structure ActionOut where
  action : PyVal
  parameter : PyVal
  data : DMData
  deriving DecidableEq, Repr

/-- The per-intent dispatch of `DM.__call__` (`src/components/dm.py`, lines
89-104) applied to one validated parsed proposal.  `confirmResult` models the
return value of `DM._handle_confirmation`, which is `None` exactly when the
query produced no result (`BeerDataset.filter_by_intent` returns `None` on an
empty frame and a non-empty JSON string otherwise, and
`record_user_rating` returns `None` or a non-empty payload), so Python
truthiness of `result` coincides with `Option.isSome`.  The returned flag
records whether the intent's index is appended to `remove_indices`. -/
def dmStep (state : StateTracker) (parsed : Proposal) (confirmResult : Option String) :
    ActionOut × Bool :=
  if parsed.action = PyVal.str "confirmation" then
    match confirmResult with
    | some r => (⟨PyVal.str "confirmation", parsed.parameter, DMData.payload r⟩, true)
    | Option.none =>
        (⟨PyVal.str "check_info", parsed.parameter, DMData.serialized state.serialize⟩, false)
  else if parsed.action = PyVal.str "request_info" then
    (⟨PyVal.str "request_info", parsed.parameter, DMData.intentLabel state.intent⟩, false)
  else
    (⟨parsed.action, parsed.parameter, DMData.undefinedResult⟩, false)

/-- The batch structure of `DM.__call__`: one dispatch per active intent, all
actions collected, and the registry filtered of the confirmed-and-resolved
intents afterwards (`remove_indices` / the final list comprehension). -/
def dmBatch (items : List (StateTracker × Proposal × Option String)) :
    List ActionOut × List StateTracker :=
  (items.map (fun it => (dmStep it.1 it.2.1 it.2.2).1),
   (items.filter (fun it => ¬ (dmStep it.1 it.2.1 it.2.2).2)).map Prod.fst)

/-- One catalog record (a row of `dataset/beer_data.csv` as loaded by
`BeerDataset`).  `style` is optional because the style filter drops null
styles; the numeric columns are `Option ℚ` because `pd.to_numeric(...,
errors="coerce")` turns unparsable entries into `NaN`, which the filters then
drop.  `userRating`/`userComment` model the lazily added `User Rating` /
`User Comment` columns (`Option.none` = absent or `None`). -/
structure Row where
  id : Nat
  name : String
  fullName : String
  style : Option String
  brewery : String
  description : String
  abv : Option ℚ
  minIbu : Option ℚ
  maxIbu : Option ℚ
  rating : Option ℚ
  userRating : Option PyVal
  userComment : Option PyVal
  deriving DecidableEq, Repr

/-- Digit run to a natural number. -/
def digitsToNat (cs : List Char) : Nat :=
  cs.foldl (fun acc c => 10 * acc + (c.toNat - 48)) 0

/-- Models Python `float(s)` on a string: optional sign, decimal digits with
an optional fractional part, surrounding whitespace allowed.  (Exponent,
`inf`/`nan` and underscore forms are omitted; no claim exercises them.) -/
def parseDecimal (s : String) : Option ℚ :=
  let cs := (strTrim s).toList
  let signAndRest : ℚ × List Char :=
    match cs with
    | c :: rest =>
        if c = '-' then (-1, rest)
        else if c = '+' then (1, rest)
        else (1, cs)
    | [] => (1, [])
  let intPart := signAndRest.2.takeWhile Char.isDigit
  let rest1 := signAndRest.2.dropWhile Char.isDigit
  match rest1 with
  | [] =>
      if intPart = [] then Option.none
      else some (signAndRest.1 * (digitsToNat intPart : ℚ))
  | c :: fracRest =>
      if c = '.' then
        let fracPart := fracRest.takeWhile Char.isDigit
        let rest2 := fracRest.dropWhile Char.isDigit
        if rest2 = [] ∧ ¬ (intPart = [] ∧ fracPart = []) then
          some (signAndRest.1 *
            ((digitsToNat intPart : ℚ) + (digitsToNat fracPart : ℚ) / ((10 : ℚ) ^ fracPart.length)))
        else Option.none
      else Option.none

/-- Models Python `float(v)` on a `PyVal`: numbers pass through, strings are
parsed, `None` raises (hence `Option.none`). -/
def pyFloat (v : PyVal) : Option ℚ :=
  match v with
  | .num q => some q
  | .str s => parseDecimal s
  | .none => Option.none

/-- The value handed to `_filter_by_rating`: either a Python list/tuple or a
scalar. -/
inductive RatingInput where
  | list (elems : List PyVal)
  | atom (v : PyVal)
  deriving DecidableEq, Repr

/-- `BeerDataset._filter_by_rating` (`src/dataset/dataset.py`, lines
155-166).  The numeric coercion and `dropna` are modelled by keeping only
rows whose `rating` is `some`.  A two-element list converts both endpoints
with `float(...)` outside any `try`, so a non-numeric endpoint raises
(`Except.error`); every other conversion failure is caught by the bare
`except` and returns the coerced frame unfiltered. -/
def filterByRating (val : RatingInput) (data : List Row) : Except String (List Row) :=
  let df := data.filter (fun r => r.rating.isSome)
  match val with
  | .list [a, b] =>
      match pyFloat a, pyFloat b with
      | some low, some high =>
          Except.ok (df.filter (fun r =>
            match r.rating with
            | some x => decide (low ≤ x ∧ x ≤ high)
            | Option.none => false))
      | _, _ => Except.error "ValueError: could not convert string to float"
  | .list _ => Except.ok df
  | .atom v =>
      match pyFloat v with
      | some m =>
          Except.ok (df.filter (fun r =>
            match r.rating with
            | some x => decide (m ≤ x)
            | Option.none => false))
      | Option.none => Except.ok df

/-- Drops characters up to and including the first `)`; `Option.none` when no
`)` remains. -/
def dropThroughClose (cs : List Char) : Option (List Char) :=
  match cs.dropWhile (fun c => c ≠ ')') with
  | [] => Option.none
  | _ :: rest => some rest

theorem dropThroughClose_length {cs rest : List Char}
    (h : dropThroughClose cs = some rest) : rest.length < cs.length := by
  unfold dropThroughClose at h
  cases e : cs.dropWhile (fun c => c ≠ ')') with
  | nil => rw [e] at h; cases h
  | cons a l =>
      rw [e] at h
      cases h
      have h1 : (cs.dropWhile (fun c => c ≠ ')')).length ≤ cs.length :=
        length_dropWhile_le_self _ cs
      rw [e] at h1
      simp only [List.length_cons] at h1
      exact Nat.lt_of_lt_of_le (Nat.lt_succ_self _) h1

/-- Models `re.sub(r"\(.*?\)", "", s)`: each non-greedy match runs from a `(`
to the nearest following `)`; a `(` with no later `)` is kept verbatim. -/
def stripParens : List Char → List Char
  | [] => []
  | c :: rest =>
    if c = '(' then
      match h : dropThroughClose rest with
      | some rest2 => stripParens rest2
      | Option.none => c :: stripParens rest
    else c :: stripParens rest
termination_by l => l.length
decreasing_by
  · exact Nat.lt_succ_of_lt (dropThroughClose_length h)
  · exact Nat.lt_succ_self _
  · exact Nat.lt_succ_self _

/-- Collapses whitespace runs to single spaces and strips the ends: the
composition `re.sub(r"\s+", " ", ...)` followed by `.strip()`. -/
def collapseWs (s : String) : String :=
  String.mk (joinSpace (wordsBy pyWhitespace s.toList))

/-- The name-normalization chain of `_filter_by_name`
(`src/dataset/dataset.py`, lines 200-203): lower-case, remove parenthetical
qualifiers, remove punctuation, collapse whitespace. -/
def nameClean (name : String) : String :=
  collapseWs (String.mk ((stripParens (strLower name).toList).filter
    (fun c => isWordChar c || pyWhitespace c)))

/-- Length of a longest common subsequence, the core of the InDel distance. -/
def lcsLen : List Char → List Char → Nat
  | [], _ => 0
  | _ :: _, [] => 0
  | a :: as, b :: bs =>
      if a = b then lcsLen as bs + 1
      else max (lcsLen (a :: as) bs) (lcsLen as (b :: bs))
termination_by l1 l2 => l1.length + l2.length
decreasing_by
  · simp_arith
  · simp_arith
  · simp_arith

/-- `rapidfuzz.fuzz.ratio`, the normalized InDel similarity:
`100 * (len1 + len2 - dist) / (len1 + len2)` where the InDel distance is
`len1 + len2 - 2 * lcs`, hence `100 * 2 * lcs / (len1 + len2)`; two empty
strings score 100.  Scores are modelled exactly, as rationals. -/
def indelSim (a b : String) : ℚ :=
  let la := a.toList
  let lb := b.toList
  if la.length + lb.length = 0 then 100
  else (100 * 2 * (lcsLen la lb : ℚ)) / ((la.length : ℚ) + (lb.length : ℚ))

/-- The `while True` adaptive-threshold loop shared by `_filter_by_name` and
`_filter_by_brewery` (`src/dataset/dataset.py`, lines 205-217 and 222-232),
fuel-indexed: `Option.none` means the loop has not halted within `fuel`
iterations.  `scores` pairs each candidate row with its similarity to the
query; a row is matched at threshold `t` exactly when its score is at least
`t` (`process.extract` keeps scores at or above `score_cutoff`, and
`limit=self._limit` never truncates).  The source returns only the rows; the
final threshold is returned alongside them so that the specification can
speak about it. -/
def adaptiveGo (scores : List (ℚ × Row)) : Int → Nat → Option (List Row × Int)
  | _, 0 => Option.none
  | t, fuel + 1 =>
    let result := (scores.filter (fun p => (t : ℚ) ≤ p.1)).map Prod.snd
    if result.isEmpty ∧ 30 < t then adaptiveGo scores (t - 5) fuel
    else if 10 < result.length ∧ t < 100 then adaptiveGo scores (t + 1) fuel
    else some (result, t)

/-- `BeerDataset._filter_by_name`: clean the query with `.strip().lower()`,
clean every row name with `nameClean`, score with `fuzz.ratio`, then run the
adaptive loop from threshold 90. -/
def filterByName (query : String) (data : List Row) (fuel : Nat) :
    Option (List Row × Int) :=
  adaptiveGo (data.map (fun r => (indelSim (strLower (strTrim query)) (nameClean r.name), r))) 90 fuel

/-- `BeerDataset._filter_by_brewery`: identical loop, raw strings scored with
`fuzz.ratio`, starting threshold 90. -/
def filterByBrewery (query : String) (data : List Row) (fuel : Nat) :
    Option (List Row × Int) :=
  adaptiveGo (data.map (fun r => (indelSim query r.brewery, r))) 90 fuel

/-- The normalization `q = re.sub(r"\s+", " ", query.strip().lower())` at the
head of `_filter_by_style`. -/
def styleNorm (query : String) : String :=
  collapseWs (strLower (strTrim query))

/-- `re.findall(r"\w+", q)`: the maximal word-character runs of `q`. -/
def wordTokens (s : String) : List String :=
  (wordsBy (fun c => ¬ isWordChar c) s.toList).map String.mk

/-- First-occurrence deduplication with an accumulator of already-seen
elements (structural recursion, so it reduces inside the kernel); models
pandas `.unique()` and `.drop_duplicates()` (both keep first occurrences). -/
def dedupAcc {α : Type} [DecidableEq α] (seen : List α) : List α → List α
  | [] => []
  | a :: rest =>
      if seen.contains a then dedupAcc seen rest
      else a :: dedupAcc (a :: seen) rest

/-- First-occurrence deduplication. -/
def dedupFirst {α : Type} [DecidableEq α] (l : List α) : List α :=
  dedupAcc [] l

/-- The substring candidate set of `_filter_by_style`
(`src/dataset/dataset.py`, lines 172-178): the distinct non-null style values
whose lower-cased text contains every token of the normalized query as a
substring.  (`.unique()` keeps first occurrences; the set is only used for
membership tests.) -/
def styleSubstrStyles (q : String) (data : List Row) : List String :=
  dedupFirst ((data.filterMap Row.style).filter (fun s =>
    (wordTokens q).all (fun t => decide (List.IsInfix t.toList (strLower s).toList))))

/-- Stable insertion into a list sorted by score descending: the new element
goes after every element with a strictly greater score and before the first
element with a smaller-or-equal score. -/
def insertDesc (x : String × ℚ) : List (String × ℚ) → List (String × ℚ)
  | [] => [x]
  | y :: ys => if x.2 < y.2 then y :: insertDesc x ys else x :: y :: ys

/-- Stable sort by score descending (insertion sort), matching the stable
descending sort `process.extract` applies to its scored candidates. -/
def sortByScoreDesc (l : List (String × ℚ)) : List (String × ℚ) :=
  l.foldr insertDesc []

/-- `process.extract(q, choices, scorer, score_cutoff)` with the default
`limit=5`: the scored choices at or above the cutoff, best matches first
(stable for score ties), truncated to five, projected to the choice strings. -/
def extractTop5 (scorer : String → String → ℚ) (q : String) (choices : List String)
    (cutoff : ℚ) : List String :=
  ((sortByScoreDesc ((choices.map (fun c => (c, scorer q c))).filter
      (fun p => decide (cutoff ≤ p.2)))).take 5).map Prod.fst

/-- The fuzzy candidate set of `_filter_by_style` (`src/dataset/dataset.py`,
lines 181-187): `process.extract` over the distinct non-null styles at
descending cutoffs 90, 85, 80, 75, stopping at the first cutoff that yields
any match; empty when even 75 yields none.  `scorer` stands for
`rapidfuzz.fuzz.token_set_ratio`, an external-library function the embedding
keeps abstract. -/
def styleFuzzyStyles (scorer : String → String → ℚ) (q : String) (data : List Row) :
    List String :=
  let uniq := dedupFirst (data.filterMap Row.style)
  [(90 : ℚ), 85, 80, 75].foldl
    (fun acc thr => if acc = [] then extractTop5 scorer q uniq thr else acc) []

/-- `BeerDataset._filter_by_style` (`src/dataset/dataset.py`, lines 168-194).
The final fallback `return df_substr or df_fuzzy or data.iloc[0:0]` calls
`bool(...)` on a pandas `DataFrame`, which unconditionally raises
`ValueError: The truth value of a DataFrame is ambiguous`; the `Except.error`
branch models that exception.  The intersection is `pd.merge(..., "inner")`
on all columns (rows present in both subsets) and the union fallback is
`pd.concat(...).drop_duplicates()` (append, keep first occurrences). -/
def filterByStyle (scorer : String → String → ℚ) (query : String) (data : List Row) :
    Except String (List Row) :=
  let q := styleNorm query
  let substrStyles := styleSubstrStyles q data
  let dfSubstr :=
    if substrStyles ≠ [] then
      data.filter (fun r =>
        match r.style with
        | some s => substrStyles.contains s
        | Option.none => false)
    else []
  let fuzzyStyles := styleFuzzyStyles scorer q data
  let dfFuzzy :=
    if fuzzyStyles ≠ [] then
      data.filter (fun r =>
        match r.style with
        | some s => fuzzyStyles.contains s
        | Option.none => false)
    else []
  if dfSubstr ≠ [] ∧ dfFuzzy ≠ [] then
    let intersect := dfSubstr.filter (fun r => dfFuzzy.contains r)
    Except.ok (if intersect ≠ [] then intersect else dedupFirst (dfSubstr ++ dfFuzzy))
  else
    Except.error "ValueError: The truth value of a DataFrame is ambiguous."

/-- Models Python `str(v)` where a slot value is interpolated or handed to the
matcher; the numeric rendering is irrelevant to every claim. -/
def pyStr : PyVal → String
  | .none => "None"
  | .str s => s
  | .num q => "#" ++ toString q

/-- `matches[0][0]` of `process.extract(name, names, scorer, score_cutoff=85,
limit=5)`: the best-scoring candidate at similarity at least 85, first
occurrence on ties; `Option.none` when no candidate reaches 85. -/
def bestMatch (scorer : String → String → ℚ) (query : String) (names : List String) :
    Option String :=
  (extractTop5 scorer query names 85).head?

/-- The confirmation payload `{"beer": {...}}` returned by
`record_user_rating`. -/
structure RatingPayload where
  name : String
  brewery : String
  newRating : PyVal
  comment : PyVal
  deriving DecidableEq, Repr

/-- The observable outcome of a successful `record_user_rating`: the new
in-memory catalog, the catalog content written to disk by
`self.data.to_csv(self.path)` before returning, and the returned payload. -/
structure RatingOutcome where
  rows : List Row
  persisted : List Row
  payload : RatingPayload
  deriving DecidableEq, Repr

/-- `BeerDataset.record_user_rating` (`src/dataset/dataset.py`, lines
56-104).  `scorer` stands for `rapidfuzz.fuzz.token_sort_ratio` (external
library, kept abstract).  `Option.none` models the `return None` failure
paths, on which the catalog is left untouched; on success every row whose
`Name` equals the matched name gets `User Rating` set to the given rating
(and `User Comment` set to the quoted comment when the comment is truthy),
the whole table is persisted, and the payload is built from the first
matched row. -/
def recordUserRating (scorer : String → String → ℚ) (slots : Slots) (data : List Row) :
    Option RatingOutcome :=
  let name := slotsGet slots "name"
  let rating := slotsGet slots "rating"
  let comment := slotsGet slots "comment"
  if name = PyVal.none ∨ rating = PyVal.none then Option.none
  else
    match bestMatch scorer (pyStr name) (dedupFirst (data.map Row.name)) with
    | Option.none => Option.none
    | some matchedName =>
      if data.all (fun r => r.name ≠ matchedName) then Option.none
      else
        match (data.map (fun r =>
            if r.name = matchedName then
              { r with
                  userRating := some rating,
                  userComment :=
                    if ¬ pyFalsy comment then
                      some (PyVal.str ("\"" ++ pyStr comment ++ "\""))
                    else r.userComment }
            else r)).find? (fun r => r.name = matchedName) with
        | Option.none => Option.none
        | some row =>
            some ⟨data.map (fun r =>
                if r.name = matchedName then
                  { r with
                      userRating := some rating,
                      userComment :=
                        if ¬ pyFalsy comment then
                          some (PyVal.str ("\"" ++ pyStr comment ++ "\""))
                        else r.userComment }
                else r),
              data.map (fun r =>
                if r.name = matchedName then
                  { r with
                      userRating := some rating,
                      userComment :=
                        if ¬ pyFalsy comment then
                          some (PyVal.str ("\"" ++ pyStr comment ++ "\""))
                        else r.userComment }
                else r),
              ⟨row.name, row.brewery, rating, comment⟩⟩

theorem mem_dictSet {d : Slots} {k : String} {v : PyVal} {kv : String × PyVal}
    (h : kv ∈ dictSet d k v) : kv = (k, v) ∨ kv ∈ d := by
  unfold dictSet at h
  by_cases hc : (d.map Prod.fst).contains k
  · rw [if_pos hc] at h
    obtain ⟨p, hp, he⟩ := List.mem_map.mp h
    by_cases hpk : p.1 = k
    · rw [if_pos hpk] at he
      exact Or.inl he.symm
    · rw [if_neg hpk] at he
      exact Or.inr (he ▸ hp)
  · rw [if_neg hc] at h
    rcases List.mem_append.mp h with h1 | h1
    · exact Or.inr h1
    · exact Or.inl (List.mem_singleton.mp h1)

theorem keys_dictSet_of_mem {d : Slots} {k : String} (v : PyVal)
    (hk : k ∈ d.map Prod.fst) :
    (dictSet d k v).map Prod.fst = d.map Prod.fst := by
  unfold dictSet
  rw [if_pos (List.elem_iff.mpr hk)]
  rw [List.map_map]
  apply List.map_congr_left
  intro p _
  by_cases hpk : p.1 = k
  · simp [hpk]
  · simp [hpk]

theorem slotWrite_no_null (d : Slots) (w : String × PyVal)
    (h : ∀ kv ∈ d, kv.2 ≠ PyVal.str "null") :
    ∀ kv ∈ dictSet d w.1 (normalizeVal w.2), kv.2 ≠ PyVal.str "null" := by
  intro kv1 hkv1
  rcases mem_dictSet hkv1 with he | hm
  · subst he
    unfold normalizeVal
    by_cases hv : w.2 = PyVal.str "null" ∨ w.2 = PyVal.none
    · simp [hv]
    · simp only [if_neg hv]
      intro hcontra
      exact hv (Or.inl hcontra)
  · exact h kv1 hm

theorem slotFold_no_null :
    ∀ (ws : List (String × PyVal)) (d : Slots),
      (∀ kv ∈ d, kv.2 ≠ PyVal.str "null") →
      ∀ kv ∈ ws.foldl (fun d2 kv => dictSet d2 kv.1 (normalizeVal kv.2)) d,
        kv.2 ≠ PyVal.str "null" := by
  intro ws
  induction ws with
  | nil => intro d h; exact h
  | cons w rest ih =>
      intro d h
      exact ih (dictSet d w.1 (normalizeVal w.2)) (slotWrite_no_null d w h)

theorem update_preserves_no_null {st : StateTracker} {obs : Observation}
    (h : ∀ kv ∈ st.slots, kv.2 ≠ PyVal.str "null") :
    ∀ kv ∈ (st.update obs).slots, kv.2 ≠ PyVal.str "null" :=
  slotFold_no_null obs st.slots h

theorem slotFold_keys :
    ∀ (ws : List (String × PyVal)) (d : Slots),
      (∀ kv ∈ ws, kv.1 ∈ d.map Prod.fst) →
      (ws.foldl (fun d2 kv => dictSet d2 kv.1 (normalizeVal kv.2)) d).map Prod.fst
        = d.map Prod.fst := by
  intro ws
  induction ws with
  | nil => intro d _; rfl
  | cons w rest ih =>
      intro d h
      have hw : w.1 ∈ d.map Prod.fst := h w (List.mem_cons_self w rest)
      have hkeys := keys_dictSet_of_mem (normalizeVal w.2) hw
      have hrest : ∀ kv ∈ rest, kv.1 ∈ (dictSet d w.1 (normalizeVal w.2)).map Prod.fst := by
        intro kv hkv
        rw [hkeys]
        exact h kv (List.mem_cons_of_mem w hkv)
      calc (rest.foldl (fun d2 kv => dictSet d2 kv.1 (normalizeVal kv.2))
              (dictSet d w.1 (normalizeVal w.2))).map Prod.fst
      _ = (dictSet d w.1 (normalizeVal w.2)).map Prod.fst :=
          ih (dictSet d w.1 (normalizeVal w.2)) hrest
      _ = d.map Prod.fst := hkeys

theorem update_keys_stable {st : StateTracker} {obs : Observation}
    (h : ∀ kv ∈ obs, kv.1 ∈ st.slots.map Prod.fst) :
    (st.update obs).slots.map Prod.fst = st.slots.map Prod.fst :=
  slotFold_keys obs st.slots h

theorem init_keys (intent : String) :
    (StateTracker.init intent).slots.map Prod.fst = intentSlots intent := by
  unfold StateTracker.init initializeSlots
  rw [List.map_map]
  exact List.map_id _

theorem foldl_update_keys :
    ∀ (obss : List Observation) (st : StateTracker) (ks : List String),
      (∀ obs ∈ obss, ∀ kv ∈ obs, kv.1 ∈ ks) →
      st.slots.map Prod.fst = ks →
      (obss.foldl StateTracker.update st).slots.map Prod.fst = ks ∧
      (obss.foldl StateTracker.update st).intent = st.intent := by
  intro obss
  induction obss with
  | nil => intro st ks _ hst; exact ⟨hst, rfl⟩
  | cons o os ih =>
      intro st ks h hst
      have hkeys : (st.update o).slots.map Prod.fst = ks := by
        rw [update_keys_stable]
        · exact hst
        · intro kv hkv
          rw [hst]
          exact h o (List.mem_cons_self o os) kv hkv
      have hrest : ∀ obs ∈ os, ∀ kv ∈ obs, kv.1 ∈ ks := by
        intro obs hobs kv hkv
        exact h obs (List.mem_cons_of_mem o hobs) kv hkv
      have hmain := ih (st.update o) ks hrest hkeys
      exact ⟨hmain.1, hmain.2⟩

theorem find?_overwrite (k : String) (v : PyVal) :
    ∀ d : Slots, k ∈ d.map Prod.fst →
      (d.map (fun p => if p.1 = k then (k, v) else p)).find? (fun p => p.1 = k)
        = some (k, v) := by
  intro d
  induction d with
  | nil => intro h; simp at h
  | cons a d ih =>
      intro hmem
      by_cases hak : a.1 = k
      · simp only [List.map_cons, if_pos hak]
        rw [List.find?_cons_of_pos]
        simp
      · simp only [List.map_cons, if_neg hak]
        rw [List.find?_cons_of_neg]
        · apply ih
          rw [List.map_cons] at hmem
          rcases List.mem_cons.mp hmem with h1 | h1
          · exact absurd h1.symm hak
          · exact h1
        · simp [hak]

theorem find?_append_right (k : String) (v : PyVal) :
    ∀ d : Slots, k ∉ d.map Prod.fst →
      (d ++ [(k, v)]).find? (fun p => p.1 = k) = some (k, v) := by
  intro d
  induction d with
  | nil =>
      intro _
      rw [List.nil_append, List.find?_cons_of_pos]
      simp
  | cons a d ih =>
      intro hmem
      rw [List.cons_append, List.find?_cons_of_neg]
      · apply ih
        intro hc
        apply hmem
        rw [List.map_cons]
        exact List.mem_cons_of_mem _ hc
      · simp only [decide_eq_true_eq]
        intro he
        apply hmem
        rw [List.map_cons, he]
        exact List.mem_cons_self _ _

theorem slotsGet_dictSet_self (d : Slots) (k : String) (v : PyVal) :
    slotsGet (dictSet d k v) k = v := by
  unfold dictSet
  by_cases hc : k ∈ d.map Prod.fst
  · rw [if_pos (List.elem_iff.mpr hc)]
    unfold slotsGet
    rw [find?_overwrite k v d hc]
    rfl
  · rw [if_neg (fun hh => hc (List.elem_iff.mp hh))]
    unfold slotsGet
    rw [find?_append_right k v d hc]
    rfl

/-- A `get_beer_info` tracker with slot `"name"` filled and `"brewery"` still
unset, as produced by one observation carrying only the name. -/
def c1state : StateTracker :=
  (StateTracker.init "get_beer_info").update [("name", PyVal.str "Punk IPA")]

/-- A `Confirmation` proposal targeting the `get_beer_info` intent. -/
def c1prop : Proposal :=
  ⟨PyVal.str "confirmation", PyVal.str "get_beer_info"⟩

/-- C1: the claim states that for `get_beer_info` a `Confirmation` proposal is
valid as soon as slot `"name"` is set, regardless of `"brewery"`.  The code
rejects it: the generic rule `if not full_slots and action != "request_info":
return False` at line 157 of `src/components/dm.py` fires before the
intent-specific override at lines 160-162 is reached, so the override's
confirmation disjunct `state.slots.get("name") is not None and action ==
"confirmation"` is dead code.  Concretely: intent `get_beer_info`, `"name"`
set, `"brewery"` unset, proposal `{action: "confirmation", parameter:
"get_beer_info"}` is judged invalid. -/
theorem c1_get_beer_info_early_confirmation_rejected :
    checkResponseValidity c1prop c1state = false ∧
    slotsGet c1state.slots "name" ≠ PyVal.none ∧
    slotsGet c1state.slots "brewery" = PyVal.none ∧
    c1state.intent = "get_beer_info" := by
  refine ⟨by decide, by decide, by decide, by decide⟩

/-- C2: the claim states that when at most one of the two style candidate
sets is non-empty the filter returns that set (or zero rows when both are
empty).  The code instead evaluates `df_substr or df_fuzzy or data.iloc[0:0]`
(`src/dataset/dataset.py`, line 194), and `bool(...)` of a pandas `DataFrame`
unconditionally raises `ValueError`.  On an empty catalog snapshot — which
the sequential filter chain of `filter_by_intent` can produce — both
candidate sets are empty, the scorer is never consulted, and the filter
raises instead of returning zero rows. -/
theorem c2_style_combine_raises (scorer : String → String → ℚ) :
    filterByStyle scorer "ipa" []
      = Except.error "ValueError: The truth value of a DataFrame is ambiguous." := rfl

/-- A write of the literal string `"none"` to slot `"name"` of a
`get_beer_info` tracker is stored verbatim, not normalized to unset. -/
theorem c4_none_sentinel_stored :
    slotsGet ((StateTracker.init "get_beer_info").update
        [("name", PyVal.str "none")]).slots "name" = PyVal.str "none" ∧
    PyVal.str "none" ≠ PyVal.none := by
  refine ⟨by decide, by decide⟩

/-- C4 (amended): `StateTracker.update` normalizes a slot value equal to the
literal string `"null"` or a real null to unset, and the string `"null"` is
never stored in a tracker whose slots do not already contain it; but the
literal string `"none"` is not treated as a sentinel and is stored verbatim
(the source check is `val in ["null", None]`, which does not cover
`"none"`). -/
theorem c4_sentinel_normalization (st : StateTracker) (obs : Observation) (k : String)
    (hclean : ∀ kv ∈ st.slots, kv.2 ≠ PyVal.str "null") :
    (∀ kv ∈ (st.update obs).slots, kv.2 ≠ PyVal.str "null") ∧
    normalizeVal (PyVal.str "null") = PyVal.none ∧
    normalizeVal PyVal.none = PyVal.none ∧
    normalizeVal (PyVal.str "none") = PyVal.str "none" ∧
    slotsGet (st.update [(k, PyVal.str "null")]).slots k = PyVal.none ∧
    slotsGet (st.update [(k, PyVal.none)]).slots k = PyVal.none := by
  refine ⟨update_preserves_no_null hclean, by decide, by decide, by decide, ?_, ?_⟩
  · show slotsGet (dictSet st.slots k (normalizeVal (PyVal.str "null"))) k = PyVal.none
    rw [show normalizeVal (PyVal.str "null") = PyVal.none from by decide]
    exact slotsGet_dictSet_self st.slots k PyVal.none
  · show slotsGet (dictSet st.slots k (normalizeVal PyVal.none)) k = PyVal.none
    rw [show normalizeVal PyVal.none = PyVal.none from by decide]
    exact slotsGet_dictSet_self st.slots k PyVal.none

/-- Applies the C4 theorem at a concrete tracker: a `"null"` write to slot
`"name"` of a fresh `get_beer_info` tracker lands as unset. -/
theorem c4_sentinel_normalization_witness :
    slotsGet ((StateTracker.init "get_beer_info").update
        [("name", PyVal.str "null")]).slots "name" = PyVal.none :=
  (c4_sentinel_normalization (StateTracker.init "get_beer_info")
      [("name", PyVal.str "null")] "name" (by decide)).2.2.2.2.1

/-- Merging an observation whose nested slot key `"color"` is not in the
static slot table of `get_beer_info` extends the tracker's key set: the
Python assignment `self.slots[slot] = ...` adds missing keys. -/
theorem c5_foreign_key_grows_slots :
    ((StateTracker.init "get_beer_info").update
        [("color", PyVal.str "amber")]).slots.map Prod.fst
      = ["name", "brewery", "color"] ∧
    intentSlots "get_beer_info" = ["name", "brewery"] := by
  refine ⟨by decide, by decide⟩

/-- C5 (amended): the key set of a tracker's slots mapping equals the static
slot set of its intent after merging any sequence of observations whose
nested slot keys all belong to that static set; an observation carrying a
foreign key extends the mapping instead. -/
theorem c5_key_set_stable (intent : String) (obss : List Observation)
    (h : ∀ obs ∈ obss, ∀ kv ∈ obs, kv.1 ∈ intentSlots intent) :
    (obss.foldl StateTracker.update (StateTracker.init intent)).slots.map Prod.fst
      = intentSlots intent :=
  (foldl_update_keys obss (StateTracker.init intent) (intentSlots intent) h
    (init_keys intent)).1

/-- Applies the C5 theorem to a `get_beer_recommendation` tracker merged with
two in-table observations. -/
theorem c5_key_set_stable_witness :
    (([[("style", PyVal.str "ipa")], [("abv", PyVal.str "low"), ("style", PyVal.none)]]
        : List Observation).foldl
      StateTracker.update (StateTracker.init "get_beer_recommendation")).slots.map Prod.fst
      = intentSlots "get_beer_recommendation" :=
  c5_key_set_stable "get_beer_recommendation"
    [[("style", PyVal.str "ipa")], [("abv", PyVal.str "low"), ("style", PyVal.none)]]
    (by decide)

theorem mem_keys_dictSet {d : Slots} {k : String} (k2 : String) (v : PyVal)
    (h : k ∈ d.map Prod.fst) : k ∈ (dictSet d k2 v).map Prod.fst := by
  by_cases hc : k2 ∈ d.map Prod.fst
  · rw [keys_dictSet_of_mem v hc]
    exact h
  · unfold dictSet
    rw [if_neg (fun hh => hc (List.elem_iff.mp hh))]
    rw [List.map_append]
    exact List.mem_append_left _ h

theorem mem_keys_slotFold {k : String} :
    ∀ (ws : List (String × PyVal)) (d : Slots), k ∈ d.map Prod.fst →
      k ∈ (ws.foldl (fun d2 kv => dictSet d2 kv.1 (normalizeVal kv.2)) d).map Prod.fst := by
  intro ws
  induction ws with
  | nil => intro d h; exact h
  | cons w rest ih =>
      intro d h
      exact ih (dictSet d w.1 (normalizeVal w.2)) (mem_keys_dictSet w.1 (normalizeVal w.2) h)

theorem foldl_update_intent :
    ∀ (obss : List Observation) (st : StateTracker),
      (obss.foldl StateTracker.update st).intent = st.intent := by
  intro obss
  induction obss with
  | nil => intro st; rfl
  | cons o os ih => intro st; exact ih (st.update o)

theorem mem_keys_foldl_update {k : String} :
    ∀ (obss : List Observation) (st : StateTracker), k ∈ st.slots.map Prod.fst →
      k ∈ (obss.foldl StateTracker.update st).slots.map Prod.fst := by
  intro obss
  induction obss with
  | nil => intro st h; exact h
  | cons o os ih =>
      intro st h
      exact ih (st.update o) (mem_keys_slotFold o st.slots h)

theorem find?_eq_of_mem_keys {k : String} :
    ∀ d : Slots, k ∈ d.map Prod.fst →
      ∃ v, d.find? (fun p => p.1 = k) = some (k, v) := by
  intro d
  induction d with
  | nil => intro h; simp at h
  | cons a d ih =>
      intro hmem
      by_cases hak : a.1 = k
      · refine ⟨a.2, ?_⟩
        rw [List.find?_cons_of_pos]
        · rw [← hak]
        · simp [hak]
      · rw [List.map_cons] at hmem
        rcases List.mem_cons.mp hmem with h1 | h1
        · exact absurd h1.symm hak
        · obtain ⟨v, hv⟩ := ih h1
          refine ⟨v, ?_⟩
          rw [List.find?_cons_of_neg]
          · exact hv
          · simp [hak]

theorem find?_serialize (k : String) :
    ∀ d : Slots,
      (d.map (fun p => (p.1, if p.2 = PyVal.none then PyVal.str "null" else p.2))).find?
          (fun p => p.1 = k)
        = (d.find? (fun p => p.1 = k)).map
            (fun p => (p.1, if p.2 = PyVal.none then PyVal.str "null" else p.2)) := by
  intro d
  induction d with
  | nil => rfl
  | cons a d ih =>
      by_cases hak : a.1 = k
      · rw [List.map_cons, List.find?_cons_of_pos, List.find?_cons_of_pos]
        · rfl
        · simp [hak]
        · simp [hak]
      · rw [List.map_cons, List.find?_cons_of_neg, List.find?_cons_of_neg]
        · exact ih
        · simp [hak]
        · simp [hak]

/-- C9: for every tracker created for an intent and merged with any sequence
of observations, the serialized view carries the intent and lists every
statically defined slot of that intent — an unset slot is rendered exactly as
the string `"null"`, a set slot as its value; no static slot is ever
omitted. -/
theorem c9_serialize_full_enumeration (intent : String) (obss : List Observation)
    (k : String) (hk : k ∈ intentSlots intent) :
    (obss.foldl StateTracker.update (StateTracker.init intent)).serialize.intent = intent ∧
    (obss.foldl StateTracker.update (StateTracker.init intent)).serialize.slots.find?
        (fun p => p.1 = k)
      = some (k,
          if slotsGet (obss.foldl StateTracker.update (StateTracker.init intent)).slots k
              = PyVal.none
          then PyVal.str "null"
          else slotsGet (obss.foldl StateTracker.update (StateTracker.init intent)).slots k) := by
  constructor
  · show (obss.foldl StateTracker.update (StateTracker.init intent)).intent = intent
    exact foldl_update_intent obss (StateTracker.init intent)
  · have hkeys : k ∈ (obss.foldl StateTracker.update (StateTracker.init intent)).slots.map
        Prod.fst := by
      apply mem_keys_foldl_update
      rw [init_keys]
      exact hk
    obtain ⟨v, hv⟩ := find?_eq_of_mem_keys _ hkeys
    have hget : slotsGet (obss.foldl StateTracker.update (StateTracker.init intent)).slots k
        = v := by
      unfold slotsGet
      rw [hv]
      rfl
    show ((obss.foldl StateTracker.update (StateTracker.init intent)).slots.map
        (fun p => (p.1, if p.2 = PyVal.none then PyVal.str "null" else p.2))).find?
        (fun p => p.1 = k) = _
    rw [find?_serialize, hv, hget]
    rfl

/-- Applies the C9 theorem: after one observation filling `"name"`, the
serialized `get_beer_info` view still lists `"brewery"`, rendered `"null"`. -/
theorem c9_serialize_full_enumeration_witness :
    (([[("name", PyVal.str "Punk")]] : List Observation).foldl StateTracker.update
        (StateTracker.init "get_beer_info")).serialize.intent = "get_beer_info" ∧
    (([[("name", PyVal.str "Punk")]] : List Observation).foldl StateTracker.update
        (StateTracker.init "get_beer_info")).serialize.slots.find? (fun p => p.1 = "brewery")
      = some ("brewery",
          if slotsGet (([[("name", PyVal.str "Punk")]] : List Observation).foldl
                StateTracker.update (StateTracker.init "get_beer_info")).slots "brewery"
              = PyVal.none
          then PyVal.str "null"
          else slotsGet (([[("name", PyVal.str "Punk")]] : List Observation).foldl
                StateTracker.update (StateTracker.init "get_beer_info")).slots "brewery") :=
  c9_serialize_full_enumeration "get_beer_info" [[("name", PyVal.str "Punk")]] "brewery"
    (by decide)

/-- C6: dispatching a validated `Confirmation`: a non-empty query result
(`some r`) emits `{action: "confirmation", parameter: intent, data: result}`
— the action the specification calls `confirmation-result` — and removes the
intent from the registry; an empty result (`Option.none`) keeps the intent in
the registry and downgrades the emitted action to `check_info` whose data
payload is the intent's current serialized state. -/
theorem c6_confirmation_dispatch (state : StateTracker) (parsed : Proposal) (r : String)
    (hvalid : checkResponseValidity parsed state = true)
    (hconf : parsed.action = PyVal.str "confirmation") :
    dmBatch [(state, parsed, some r)]
      = ([⟨PyVal.str "confirmation", parsed.parameter, DMData.payload r⟩], []) ∧
    dmBatch [(state, parsed, Option.none)]
      = ([⟨PyVal.str "check_info", parsed.parameter, DMData.serialized state.serialize⟩],
         [state]) := by
  have hstep1 : dmStep state parsed (some r)
      = (⟨PyVal.str "confirmation", parsed.parameter, DMData.payload r⟩, true) := by
    unfold dmStep
    rw [if_pos hconf]
  have hstep2 : dmStep state parsed Option.none
      = (⟨PyVal.str "check_info", parsed.parameter, DMData.serialized state.serialize⟩,
         false) := by
    unfold dmStep
    rw [if_pos hconf]
  constructor
  · unfold dmBatch
    simp [hstep1]
  · unfold dmBatch
    simp [hstep2]

/-- A complete `get_top_rated` tracker (its single slot `"style"` is set). -/
def c6state : StateTracker :=
  (StateTracker.init "get_top_rated").update [("style", PyVal.str "ipa")]

/-- A `Confirmation` proposal for the `get_top_rated` intent, valid for
`c6state`. -/
def c6prop : Proposal :=
  ⟨PyVal.str "confirmation", PyVal.str "get_top_rated"⟩

/-- Applies the C6 theorem to a concrete validated confirmation. -/
theorem c6_confirmation_dispatch_witness :
    dmBatch [(c6state, c6prop, some "beers")]
      = ([⟨PyVal.str "confirmation", PyVal.str "get_top_rated", DMData.payload "beers"⟩], []) ∧
    dmBatch [(c6state, c6prop, Option.none)]
      = ([⟨PyVal.str "check_info", PyVal.str "get_top_rated",
           DMData.serialized c6state.serialize⟩], [c6state]) :=
  c6_confirmation_dispatch c6state c6prop "beers" (by decide) rfl

/-- C10: `DM._check_response_validity` accepts a proposal only when its
action tag is exactly `"request_info"` or `"confirmation"`; in particular a
`"check_info"` proposal from the collaborator is always rejected, and an
emitted action tagged `"check_info"` can only arise from the empty-result
downgrade of a dispatched confirmation. -/
theorem c10_check_info_never_accepted (nba : Proposal) (state : StateTracker)
    (cres : Option String) :
    (checkResponseValidity nba state = true →
      nba.action = PyVal.str "request_info" ∨ nba.action = PyVal.str "confirmation") ∧
    (nba.action = PyVal.str "check_info" → checkResponseValidity nba state = false) ∧
    (checkResponseValidity nba state = true →
      (dmStep state nba cres).1.action = PyVal.str "check_info" →
      nba.action = PyVal.str "confirmation" ∧ cres = Option.none) := by
  have part1 : checkResponseValidity nba state = true →
      nba.action = PyVal.str "request_info" ∨ nba.action = PyVal.str "confirmation" := by
    intro hv
    by_contra hne
    unfold checkResponseValidity at hv
    rw [if_pos hne] at hv
    simp at hv
  refine ⟨part1, ?_, ?_⟩
  · intro hci
    unfold checkResponseValidity
    rw [hci]
    rw [if_pos (by decide)]
  · intro hv hstep
    rcases part1 hv with hreq | hconf
    · exfalso
      unfold dmStep at hstep
      rw [if_neg (by rw [hreq]; decide), if_pos hreq] at hstep
      simp at hstep
    · refine ⟨hconf, ?_⟩
      unfold dmStep at hstep
      rw [if_pos hconf] at hstep
      cases cres with
      | none => rfl
      | some r =>
          simp at hstep

/-- Applies the C10 theorem: a concrete valid proposal's action tag is one of
the two accepted tags. -/
theorem c10_check_info_never_accepted_witness :
    c6prop.action = PyVal.str "request_info" ∨ c6prop.action = PyVal.str "confirmation" :=
  (c10_check_info_never_accepted c6prop c6state (some "beers")).1 (by decide)

/-- A catalog row whose `Rating` column holds a non-numeric entry
(`pd.to_numeric(..., errors="coerce")` turns it into `NaN`). -/
def c8row : Row :=
  ⟨1, "Mystery", "Mystery Ale", Option.none, "Brew", "d", Option.none, Option.none,
    Option.none, Option.none, Option.none, Option.none⟩

/-- The rating filter applied to the non-numeric value `"high"` does not pass
the data through unchanged: the numeric-coercion step has already dropped the
row whose own rating is unparsable, so the returned row set differs from the
input row set. -/
theorem c8_nonnumeric_not_unfiltered :
    filterByRating (RatingInput.atom (PyVal.str "high")) [c8row] = Except.ok [] ∧
    ([] : List Row) ≠ [c8row] := by
  refine ⟨rfl, by decide⟩

/-- C8 (amended): the rating filter accepts a two-element range of
convertible endpoints (closed-interval filter over the rows with numeric
ratings) or a single convertible minimum threshold; a non-numeric scalar
passes every numeric-rated row through without a rating constraint — but
rows whose own rating is non-numeric are always dropped by the coercion
step, so the row set is not literally unchanged — and a two-element range
with a non-convertible endpoint raises instead of passing through. -/
theorem c8_rating_filter_behavior (data : List Row) :
    (∀ a b low high, pyFloat a = some low → pyFloat b = some high →
      filterByRating (RatingInput.list [a, b]) data
        = Except.ok (data.filter (fun r =>
            match r.rating with
            | some x => decide (low ≤ x ∧ x ≤ high)
            | Option.none => false))) ∧
    (∀ v m, pyFloat v = some m →
      filterByRating (RatingInput.atom v) data
        = Except.ok (data.filter (fun r =>
            match r.rating with
            | some x => decide (m ≤ x)
            | Option.none => false))) ∧
    (∀ v, pyFloat v = Option.none →
      filterByRating (RatingInput.atom v) data
        = Except.ok (data.filter (fun r => r.rating.isSome))) ∧
    (∀ a b, pyFloat a = Option.none ∨ pyFloat b = Option.none →
      filterByRating (RatingInput.list [a, b]) data
        = Except.error "ValueError: could not convert string to float") := by
  have hff : ∀ q : Row → Bool, (∀ r, r.rating = Option.none → q r = false) →
      (data.filter (fun r => r.rating.isSome)).filter q = data.filter q := by
    intro q hq
    rw [List.filter_filter]
    apply List.filter_congr
    intro r _
    cases hr : r.rating with
    | none => rw [hq r hr]; simp [Option.isSome, hr]
    | some x => simp [Option.isSome, hr]
  refine ⟨?_, ?_, ?_, ?_⟩
  · intro a b low high ha hb
    show (match pyFloat a, pyFloat b with
      | some low2, some high2 =>
          Except.ok ((data.filter (fun (r : Row) => r.rating.isSome)).filter (fun (r : Row) =>
            match r.rating with
            | some x => decide (low2 ≤ x ∧ x ≤ high2)
            | Option.none => false))
      | _, _ => Except.error "ValueError: could not convert string to float") = _
    rw [ha, hb]
    show Except.ok _ = Except.ok _
    rw [hff]
    intro r hr
    rw [hr]
  · intro v m hv
    show (match pyFloat v with
      | some m2 =>
          Except.ok ((data.filter (fun (r : Row) => r.rating.isSome)).filter (fun (r : Row) =>
            match r.rating with
            | some x => decide (m2 ≤ x)
            | Option.none => false))
      | Option.none => Except.ok (data.filter (fun (r : Row) => r.rating.isSome))) = _
    rw [hv]
    show Except.ok _ = Except.ok _
    rw [hff]
    intro r hr
    rw [hr]
  · intro v hv
    show (match pyFloat v with
      | some m2 =>
          Except.ok ((data.filter (fun (r : Row) => r.rating.isSome)).filter (fun (r : Row) =>
            match r.rating with
            | some x => decide (m2 ≤ x)
            | Option.none => false))
      | Option.none => Except.ok (data.filter (fun (r : Row) => r.rating.isSome))) = _
    rw [hv]
  · intro a b hab
    show (match pyFloat a, pyFloat b with
      | some low2, some high2 =>
          Except.ok ((data.filter (fun (r : Row) => r.rating.isSome)).filter (fun (r : Row) =>
            match r.rating with
            | some x => decide (low2 ≤ x ∧ x ≤ high2)
            | Option.none => false))
      | _, _ => Except.error "ValueError: could not convert string to float") = _
    rcases hab with ha | hb
    · rw [ha]
    · rw [hb]
      cases pyFloat a with
      | none => rfl
      | some x => rfl

/-- Applies the C8 theorem: a numeric threshold `"4.0"` against the
non-numeric-rated row yields the empty row set; a range with a bad endpoint
raises. -/
theorem c8_rating_filter_witness :
    filterByRating (RatingInput.atom (PyVal.str "4.0")) [c8row] = Except.ok [] ∧
    filterByRating (RatingInput.list [PyVal.str "a", PyVal.num 5]) [c8row]
      = Except.error "ValueError: could not convert string to float" :=
  ⟨(c8_rating_filter_behavior [c8row]).2.1 (PyVal.str "4.0") 4 (by with_unfolding_all decide),
   (c8_rating_filter_behavior [c8row]).2.2.2 (PyVal.str "a") (PyVal.num 5)
     (Or.inl (by with_unfolding_all decide))⟩

/-- Number of candidate rows matched at threshold `t`. -/
def matchCount (scores : List (ℚ × Row)) (t : Int) : Nat :=
  (scores.filter (fun p => (t : ℚ) ≤ p.1)).length

theorem matchCount_mono {t t2 : Int} (scores : List (ℚ × Row)) (h : t ≤ t2) :
    matchCount scores t2 ≤ matchCount scores t := by
  unfold matchCount
  rw [← List.countP_eq_length_filter, ← List.countP_eq_length_filter]
  apply List.countP_mono_left
  intro p _ hp
  simp only [decide_eq_true_eq] at hp ⊢
  calc (t : ℚ) ≤ (t2 : ℚ) := by exact_mod_cast h
  _ ≤ p.1 := hp

/-- Invariant of the reachable threshold states of the adaptive loop, started
at 90: thresholds stay in `[26, 100]`; an off-grid threshold (not a multiple
of 5) was reached by a `+1` step from a state with more than ten matches; and
a sub-30 threshold implies more than ten matches even at 30. -/
def goodState (scores : List (ℚ × Row)) (t : Int) : Prop :=
  26 ≤ t ∧ t ≤ 100 ∧ (¬ (5 : Int) ∣ t → 10 < matchCount scores (t - 1)) ∧
    (t < 30 → 10 < matchCount scores 30)

theorem adaptiveGo_halt_characterization (scores : List (ℚ × Row)) :
    ∀ (fuel : Nat) (t : Int) (res : List Row) (tf : Int), goodState scores t →
      adaptiveGo scores t fuel = some (res, tf) →
      (res = [] ∧ tf = 30) ∨
      (0 < res.length ∧ res.length ≤ 10 ∧ 30 ≤ tf ∧ tf ≤ 100) ∨
      (10 < res.length ∧ tf = 100) := by
  intro fuel
  induction fuel with
  | zero => intro t res tf _ heq; cases heq
  | succ n ih =>
      intro t res tf hg heq
      obtain ⟨hg26, hg100, hgdvd, hg30⟩ := hg
      have hrw : adaptiveGo scores t (n + 1)
          = (if ((scores.filter (fun p => (t : ℚ) ≤ p.1)).map Prod.snd).isEmpty ∧ 30 < t then
              adaptiveGo scores (t - 5) n
            else if 10 < ((scores.filter (fun p => (t : ℚ) ≤ p.1)).map Prod.snd).length
                ∧ t < 100 then
              adaptiveGo scores (t + 1) n
            else some ((scores.filter (fun p => (t : ℚ) ≤ p.1)).map Prod.snd, t)) := rfl
      rw [hrw] at heq
      have hlen : ((scores.filter (fun p => (t : ℚ) ≤ p.1)).map Prod.snd).length
          = matchCount scores t := by
        rw [List.length_map]
        rfl
      split_ifs at heq with h1 h2
      · obtain ⟨hemp, ht30⟩ := h1
        have hcount0 : matchCount scores t = 0 := by
          rw [← hlen]
          exact List.length_eq_zero.mpr (List.isEmpty_iff.mp hemp)
        apply ih (t - 5) res tf ?_ heq
        refine ⟨by omega, by omega, ?_, ?_⟩
        · intro hnd
          have hnd2 : ¬ (5 : Int) ∣ t := by
            intro hd
            exact hnd (by omega)
          exact lt_of_lt_of_le (hgdvd hnd2) (matchCount_mono scores (by omega))
        · intro h5
          have hnd2 : ¬ (5 : Int) ∣ t := by
            intro hd
            omega
          exact lt_of_lt_of_le (hgdvd hnd2) (matchCount_mono scores (by omega))
      · obtain ⟨hbig, ht100⟩ := h2
        rw [hlen] at hbig
        apply ih (t + 1) res tf ?_ heq
        refine ⟨by omega, by omega, ?_, ?_⟩
        · intro _
          rw [show t + 1 - 1 = t by omega]
          exact hbig
        · intro h30
          exact hg30 (by omega)
      · injection heq with heq2
        have hres : res = (scores.filter (fun p => (t : ℚ) ≤ p.1)).map Prod.snd :=
          (congrArg Prod.fst heq2).symm
        have htf : tf = t := (congrArg Prod.snd heq2).symm
        have hreslen : res.length = matchCount scores t := by
          rw [hres, hlen]
        by_cases hzero : matchCount scores t = 0
        · left
          constructor
          · rw [← List.length_eq_zero, hreslen]
            exact hzero
          · have hemp : ((scores.filter (fun p => (t : ℚ) ≤ p.1)).map Prod.snd).isEmpty := by
              rw [List.isEmpty_iff, ← List.length_eq_zero, hlen]
              exact hzero
            have hle30 : t ≤ 30 := by
              by_contra hgt
              exact h1 ⟨hemp, by omega⟩
            have hge30 : 30 ≤ t := by
              by_contra hlt
              have := lt_of_lt_of_le (hg30 (by omega)) (matchCount_mono scores (by omega : t ≤ 30))
              omega
            omega
        · by_cases hbig : 10 < matchCount scores t
          · right
            right
            constructor
            · rw [hreslen]
              exact hbig
            · have h100 : ¬ t < 100 := by
                intro hlt
                exact h2 ⟨by rw [hlen]; exact hbig, hlt⟩
              omega
          · right
            left
            have hge30 : 30 ≤ t := by
              by_contra hlt
              have := lt_of_lt_of_le (hg30 (by omega)) (matchCount_mono scores (by omega : t ≤ 30))
              omega
            refine ⟨by rw [hreslen]; omega, by rw [hreslen]; omega, by omega, by omega⟩

/-- C3 (amended): the adaptive name/brewery loop does not always terminate —
when the match count jumps from more than ten straight to zero between
adjacent integer thresholds above 30, the threshold cycles forever (see the
divergence counterexample).  Whenever the loop does halt, it returns either
zero rows at threshold exactly 30, or a result of at most 10 rows at some
threshold in [30, 100], or a result of more than 10 rows at threshold
exactly 100 (when even similarity 100 matches more than ten rows). -/
theorem c3_adaptive_loop_halt_characterization (query : String) (data : List Row)
    (fuel : Nat) (res : List Row) (tf : Int)
    (h : filterByName query data fuel = some (res, tf) ∨
         filterByBrewery query data fuel = some (res, tf)) :
    (res = [] ∧ tf = 30) ∨
    (0 < res.length ∧ res.length ≤ 10 ∧ 30 ≤ tf ∧ tf ≤ 100) ∨
    (10 < res.length ∧ tf = 100) := by
  have hgood : ∀ scores : List (ℚ × Row), goodState scores 90 := by
    intro scores
    refine ⟨by omega, by omega, ?_, by omega⟩
    intro hnd
    exact absurd ⟨18, by norm_num⟩ hnd
  rcases h with h | h
  · exact adaptiveGo_halt_characterization _ fuel 90 res tf (hgood _) h
  · exact adaptiveGo_halt_characterization _ fuel 90 res tf (hgood _) h

/-- Applies the C3 theorem to an empty catalog, where the loop halts with
zero rows at threshold exactly 30. -/
theorem c3_adaptive_loop_halt_witness :
    (([] : List Row) = [] ∧ (30 : Int) = 30) ∨
    (0 < ([] : List Row).length ∧ ([] : List Row).length ≤ 10 ∧
      (30 : Int) ≤ 30 ∧ (30 : Int) ≤ 100) ∨
    (10 < ([] : List Row).length ∧ (30 : Int) = 100) :=
  c3_adaptive_loop_halt_characterization "beer" [] 20 [] 30
    (Or.inl (by with_unfolding_all rfl))

/-- A catalog row named `"aaaaaa"`; `fuzz.ratio("aaaa", "aaaaaa")` is exactly
80 (longest common subsequence 4, lengths 4 and 6, similarity 800/10). -/
def c3row : Row :=
  ⟨1, "aaaaaa", "aaaaaa", Option.none, "B", "d", Option.none, Option.none,
    Option.none, Option.none, Option.none, Option.none⟩

/-- Fifteen identical rows named `"aaaaaa"`. -/
def c3data : List Row := List.replicate 15 c3row

/-- The scored candidates of `_filter_by_name` for query `"aaaa"` against
`c3data`: fifteen entries of score exactly 80. -/
def c3scores : List (ℚ × Row) := List.replicate 15 ((80 : ℚ), c3row)

theorem c3map :
    c3data.map (fun r => (indelSim (strLower (strTrim "aaaa")) (nameClean r.name), r))
      = c3scores := by
  show (List.replicate 15 c3row).map _ = _
  rw [List.map_replicate]
  exact congrArg (List.replicate 15) (by with_unfolding_all decide)

theorem c3cycle : ∀ (fuel : Nat),
    ∀ t ∈ ([90, 85, 81, 80, 79, 78, 77, 76] : List Int),
      adaptiveGo c3scores t fuel = Option.none := by
  intro fuel
  induction fuel with
  | zero =>
      intro t ht
      fin_cases ht <;> rfl
  | succ n ih =>
      intro t ht
      fin_cases ht
      · with_unfolding_all (exact ih 85 (by decide))
      · with_unfolding_all (exact ih 80 (by decide))
      · with_unfolding_all (exact ih 76 (by decide))
      · with_unfolding_all (exact ih 81 (by decide))
      · with_unfolding_all (exact ih 80 (by decide))
      · with_unfolding_all (exact ih 79 (by decide))
      · with_unfolding_all (exact ih 78 (by decide))
      · with_unfolding_all (exact ih 77 (by decide))

/-- C3: the claim that the adaptive loop always terminates is false.  For the
query `"aaaa"` against fifteen rows named `"aaaaaa"` every score is exactly
80, so the threshold falls 90, 85, 80, then cycles 81, 76, 77, 78, 79, 80,
81, ... forever: at 80 fifteen rows match (more than ten, threshold raised),
at 81 none match (threshold lowered by five), and no state in the cycle can
halt.  `_filter_by_name` never returns on this input. -/
theorem c3_adaptive_loop_divergence :
    ¬ ∃ (fuel : Nat) (res : List Row × Int),
      filterByName "aaaa" c3data fuel = some res := by
  rintro ⟨fuel, res, h⟩
  have hnone : filterByName "aaaa" c3data fuel = Option.none := by
    show adaptiveGo
      (c3data.map (fun r => (indelSim (strLower (strTrim "aaaa")) (nameClean r.name), r)))
      90 fuel = Option.none
    rw [c3map]
    exact c3cycle fuel 90 (by decide)
  rw [hnone] at h
  cases h

theorem mem_insertDesc {x a : String × ℚ} :
    ∀ {l : List (String × ℚ)}, a ∈ insertDesc x l → a = x ∨ a ∈ l := by
  intro l
  induction l with
  | nil =>
      intro h
      exact Or.inl (List.mem_singleton.mp h)
  | cons y ys ih =>
      intro h
      unfold insertDesc at h
      by_cases hc : x.2 < y.2
      · rw [if_pos hc] at h
        rcases List.mem_cons.mp h with h1 | h1
        · exact Or.inr (h1 ▸ List.mem_cons_self _ _)
        · rcases ih h1 with h2 | h2
          · exact Or.inl h2
          · exact Or.inr (List.mem_cons_of_mem _ h2)
      · rw [if_neg hc] at h
        rcases List.mem_cons.mp h with h1 | h1
        · exact Or.inl h1
        · exact Or.inr h1

theorem mem_sortByScoreDesc {a : String × ℚ} :
    ∀ {l : List (String × ℚ)}, a ∈ sortByScoreDesc l → a ∈ l := by
  intro l
  induction l with
  | nil => intro h; cases h
  | cons y ys ih =>
      intro h
      have h2 : a ∈ insertDesc y (sortByScoreDesc ys) := h
      rcases mem_insertDesc h2 with h3 | h3
      · exact h3 ▸ List.mem_cons_self _ _
      · exact List.mem_cons_of_mem _ (ih h3)

theorem mem_extractTop5 {scorer : String → String → ℚ} {q x : String}
    {choices : List String} {cutoff : ℚ}
    (h : x ∈ extractTop5 scorer q choices cutoff) :
    x ∈ choices ∧ cutoff ≤ scorer q x := by
  unfold extractTop5 at h
  obtain ⟨pair, hpair, hx⟩ := List.mem_map.mp h
  have h1 : pair ∈ sortByScoreDesc ((choices.map (fun c => (c, scorer q c))).filter
      (fun p => decide (cutoff ≤ p.2))) := List.take_subset 5 _ hpair
  have h2 := mem_sortByScoreDesc h1
  obtain ⟨h3, h4⟩ := List.mem_filter.mp h2
  obtain ⟨c, hc, he⟩ := List.mem_map.mp h3
  subst he
  subst hx
  simp only [decide_eq_true_eq] at h4
  exact ⟨hc, h4⟩

theorem extractTop5_eq_nil {scorer : String → String → ℚ} {q : String}
    {choices : List String} {cutoff : ℚ}
    (h : ∀ c ∈ choices, scorer q c < cutoff) :
    extractTop5 scorer q choices cutoff = [] := by
  unfold extractTop5
  have hfil : (choices.map (fun c => (c, scorer q c))).filter
      (fun p => decide (cutoff ≤ p.2)) = [] := by
    rw [List.filter_eq_nil]
    intro p hp
    obtain ⟨c, hc, he⟩ := List.mem_map.mp hp
    subst he
    simp only [decide_eq_true_eq, not_le]
    exact h c hc
  rw [hfil]
  rfl

theorem mem_dedupAcc {α : Type} [DecidableEq α] {a : α} :
    ∀ (l seen : List α), a ∈ dedupAcc seen l → a ∈ l := by
  intro l
  induction l with
  | nil => intro seen h; cases h
  | cons b rest ih =>
      intro seen h
      unfold dedupAcc at h
      by_cases hc : seen.contains b
      · rw [if_pos hc] at h
        exact List.mem_cons_of_mem _ (ih seen h)
      · rw [if_neg hc] at h
        rcases List.mem_cons.mp h with h1 | h1
        · exact h1 ▸ List.mem_cons_self _ _
        · exact List.mem_cons_of_mem _ (ih (b :: seen) h1)

theorem bestMatch_some {scorer : String → String → ℚ} {q m : String}
    {names : List String} (h : bestMatch scorer q names = some m) :
    m ∈ names ∧ 85 ≤ scorer q m := by
  unfold bestMatch at h
  have hm : m ∈ extractTop5 scorer q names 85 := by
    cases he : extractTop5 scorer q names 85 with
    | nil => rw [he] at h; cases h
    | cons x xs =>
        rw [he] at h
        have hx : x = m := by
          injection h
        rw [← hx]
        exact List.mem_cons_self _ _
  exact mem_extractTop5 hm

theorem bestMatch_none {scorer : String → String → ℚ} {q : String}
    {names : List String} (h : ∀ n ∈ names, scorer q n < 85) :
    bestMatch scorer q names = Option.none := by
  unfold bestMatch
  rw [extractTop5_eq_nil h]
  rfl

theorem mem_insertDesc_self (x : String × ℚ) :
    ∀ (l : List (String × ℚ)), x ∈ insertDesc x l := by
  intro l
  induction l with
  | nil => exact List.mem_singleton.mpr rfl
  | cons y ys ih =>
      unfold insertDesc
      by_cases hc : x.2 < y.2
      · rw [if_pos hc]
        exact List.mem_cons_of_mem _ ih
      · rw [if_neg hc]
        exact List.mem_cons_self _ _

theorem mem_insertDesc_of_mem {a : String × ℚ} (x : String × ℚ) :
    ∀ {l : List (String × ℚ)}, a ∈ l → a ∈ insertDesc x l := by
  intro l
  induction l with
  | nil => intro h; cases h
  | cons y ys ih =>
      intro h
      unfold insertDesc
      by_cases hc : x.2 < y.2
      · rw [if_pos hc]
        rcases List.mem_cons.mp h with h1 | h1
        · exact h1 ▸ List.mem_cons_self _ _
        · exact List.mem_cons_of_mem _ (ih h1)
      · rw [if_neg hc]
        exact List.mem_cons_of_mem _ h

theorem mem_sortByScoreDesc_of_mem {p : String × ℚ} :
    ∀ {l : List (String × ℚ)}, p ∈ l → p ∈ sortByScoreDesc l := by
  intro l
  induction l with
  | nil => intro h; cases h
  | cons y ys ih =>
      intro h
      have hgoal : p ∈ insertDesc y (sortByScoreDesc ys) := by
        rcases List.mem_cons.mp h with h1 | h1
        · exact h1 ▸ mem_insertDesc_self y _
        · exact mem_insertDesc_of_mem y (ih h1)
      exact hgoal

theorem sortByScoreDesc_head_max :
    ∀ (l : List (String × ℚ)) (x : String × ℚ) (xs : List (String × ℚ)),
      sortByScoreDesc l = x :: xs → ∀ p ∈ l, p.2 ≤ x.2 := by
  intro l
  induction l with
  | nil => intro x xs h; cases h
  | cons y ys ih =>
      intro x xs h p hp
      have hsort : insertDesc y (sortByScoreDesc ys) = x :: xs := h
      cases hys : sortByScoreDesc ys with
      | nil =>
          rw [hys] at hsort
          have hx : y = x := by
            injection hsort
          rcases List.mem_cons.mp hp with h1 | h1
          · exact le_of_eq (by rw [h1, ← hx])
          · exfalso
            have hmem := mem_sortByScoreDesc_of_mem h1
            rw [hys] at hmem
            cases hmem
      | cons z zs =>
          rw [hys] at hsort
          unfold insertDesc at hsort
          by_cases hc : y.2 < z.2
          · rw [if_pos hc] at hsort
            have hx : z = x := by
              injection hsort
            rcases List.mem_cons.mp hp with h1 | h1
            · rw [h1, ← hx]
              exact le_of_lt hc
            · rw [← hx]
              exact ih z zs hys p h1
          · rw [if_neg hc] at hsort
            have hx : y = x := by
              injection hsort
            rcases List.mem_cons.mp hp with h1 | h1
            · exact le_of_eq (by rw [h1, ← hx])
            · have hz := ih z zs hys p h1
              have hzy : z.2 ≤ y.2 := le_of_not_lt hc
              rw [← hx]
              exact le_trans hz hzy

theorem mem_dedupAcc_of_mem {α : Type} [DecidableEq α] {a : α} :
    ∀ (l seen : List α), a ∈ l → a ∈ dedupAcc seen l ∨ a ∈ seen := by
  intro l
  induction l with
  | nil => intro seen h; cases h
  | cons b rest ih =>
      intro seen h
      unfold dedupAcc
      by_cases hc : seen.contains b
      · rw [if_pos hc]
        rcases List.mem_cons.mp h with h1 | h1
        · exact Or.inr (h1 ▸ List.elem_iff.mp hc)
        · exact ih seen h1
      · rw [if_neg hc]
        rcases List.mem_cons.mp h with h1 | h1
        · exact Or.inl (h1 ▸ List.mem_cons_self _ _)
        · rcases ih (b :: seen) h1 with h2 | h2
          · exact Or.inl (List.mem_cons_of_mem _ h2)
          · rcases List.mem_cons.mp h2 with h3 | h3
            · exact Or.inl (h3 ▸ List.mem_cons_self _ _)
            · exact Or.inr h3

theorem mem_dedupFirst_of_mem {α : Type} [DecidableEq α] {a : α} {l : List α}
    (h : a ∈ l) : a ∈ dedupFirst l := by
  rcases mem_dedupAcc_of_mem l [] h with h1 | h1
  · exact h1
  · cases h1

theorem bestMatch_best {scorer : String → String → ℚ} {q m : String}
    {names : List String} (h : bestMatch scorer q names = some m) :
    ∀ n ∈ names, scorer q n ≤ scorer q m := by
  intro n hn
  unfold bestMatch extractTop5 at h
  cases hs : sortByScoreDesc ((names.map (fun c => (c, scorer q c))).filter
      (fun p => decide (85 ≤ p.2))) with
  | nil =>
      rw [hs] at h
      cases h
  | cons x xs =>
      rw [hs] at h
      have hxmem : x ∈ (names.map (fun c => (c, scorer q c))).filter
          (fun p => decide (85 ≤ p.2)) := by
        apply mem_sortByScoreDesc
        rw [hs]
        exact List.mem_cons_self _ _
      obtain ⟨hxmap, hxscore⟩ := List.mem_filter.mp hxmem
      obtain ⟨c, hc, hce⟩ := List.mem_map.mp hxmap
      subst hce
      have hm : c = m := Option.some.inj (show some c = some m from h)
      subst hm
      simp only [decide_eq_true_eq] at hxscore
      by_cases hcut : (85 : ℚ) ≤ scorer q n
      · have hnmem : (n, scorer q n) ∈ (names.map (fun c2 => (c2, scorer q c2))).filter
            (fun p => decide (85 ≤ p.2)) := by
          rw [List.mem_filter]
          constructor
          · exact List.mem_map.mpr ⟨n, hn, rfl⟩
          · simpa using hcut
        exact sortByScoreDesc_head_max _ _ xs hs (n, scorer q n) hnmem
      · push_neg at hcut
        exact le_trans (le_of_lt hcut) hxscore

/-- C7: rating submission.  Failure cases: a missing name or rating slot, or
no catalog name scoring at least 85 against the target, yield `None` (an
empty result, no mutation).  On a match, the resolved name is a best
approximate match: it scores at least 85 and no catalog name scores higher;
every row bearing that name gets its user rating set to the given rating
(and its user comment set to the quoted comment when a non-empty comment was
given); the entire catalog is persisted before returning; and the returned
payload is `{beer: {name, brewery, new_rating, comment}}` built from the
first matched row. -/
theorem c7_record_user_rating_behavior (scorer : String → String → ℚ)
    (slots : Slots) (data : List Row) :
    (slotsGet slots "name" = PyVal.none ∨ slotsGet slots "rating" = PyVal.none →
      recordUserRating scorer slots data = Option.none) ∧
    ((∀ n ∈ data.map Row.name, scorer (pyStr (slotsGet slots "name")) n < 85) →
      recordUserRating scorer slots data = Option.none) ∧
    (∀ out, recordUserRating scorer slots data = some out →
      ∃ matched, matched ∈ data.map Row.name ∧
        85 ≤ scorer (pyStr (slotsGet slots "name")) matched ∧
        (∀ n ∈ data.map Row.name,
          scorer (pyStr (slotsGet slots "name")) n
            ≤ scorer (pyStr (slotsGet slots "name")) matched) ∧
        out.rows = data.map (fun r =>
          if r.name = matched then
            { r with
                userRating := some (slotsGet slots "rating"),
                userComment :=
                  if ¬ pyFalsy (slotsGet slots "comment") then
                    some (PyVal.str ("\"" ++ pyStr (slotsGet slots "comment") ++ "\""))
                  else r.userComment }
          else r) ∧
        out.persisted = out.rows ∧
        out.payload.name = matched ∧
        out.payload.newRating = slotsGet slots "rating" ∧
        out.payload.comment = slotsGet slots "comment" ∧
        ∃ firstRow, firstRow ∈ data ∧ firstRow.name = matched ∧
          out.payload.brewery = firstRow.brewery) := by
  have hpart1 : slotsGet slots "name" = PyVal.none ∨ slotsGet slots "rating" = PyVal.none →
      recordUserRating scorer slots data = Option.none := by
    intro h
    unfold recordUserRating
    rw [if_pos h]
  refine ⟨hpart1, ?_, ?_⟩
  · intro h
    by_cases hne : slotsGet slots "name" = PyVal.none ∨ slotsGet slots "rating" = PyVal.none
    · exact hpart1 hne
    · have hbm : bestMatch scorer (pyStr (slotsGet slots "name"))
          (dedupFirst (data.map Row.name)) = Option.none :=
        bestMatch_none (fun n hn => h n (mem_dedupAcc _ _ hn))
      unfold recordUserRating
      rw [if_neg hne, hbm]
  · intro out hout
    unfold recordUserRating at hout
    by_cases hne : slotsGet slots "name" = PyVal.none ∨ slotsGet slots "rating" = PyVal.none
    · rw [if_pos hne] at hout
      cases hout
    · rw [if_neg hne] at hout
      split at hout
      · cases hout
      · rename_i matched hbm
        split at hout
        · cases hout
        · rename_i hall
          split at hout
          · cases hout
          · rename_i row hfind
            have hout2 := Option.some.inj hout
            subst hout2
            obtain ⟨hmem, hscore⟩ := bestMatch_some hbm
            have hbest : ∀ n ∈ data.map Row.name,
                scorer (pyStr (slotsGet slots "name")) n
                  ≤ scorer (pyStr (slotsGet slots "name")) matched :=
              fun n hn => bestMatch_best hbm n (mem_dedupFirst_of_mem hn)
            have hrowname : row.name = matched := by
              have := List.find?_some hfind
              simpa using this
            have hrowmem := List.mem_of_find?_eq_some hfind
            obtain ⟨r0, hr0, hr0e⟩ := List.mem_map.mp hrowmem
            have hr0name : r0.name = row.name := by
              by_cases hcase : r0.name = matched
              · rw [← hr0e, if_pos hcase]
              · rw [← hr0e, if_neg hcase]
            have hr0brew : r0.brewery = row.brewery := by
              by_cases hcase : r0.name = matched
              · rw [← hr0e, if_pos hcase]
              · rw [← hr0e, if_neg hcase]
            refine ⟨matched, mem_dedupAcc _ _ hmem, hscore, hbest, rfl, rfl, hrowname,
              rfl, rfl, r0, hr0, ?_, hr0brew.symm⟩
            rw [hr0name, hrowname]

/-- A scorer granting similarity 100 to equal strings and 0 otherwise (a
concrete stand-in for `token_sort_ratio` on exact matches). -/
def eqScorer : String → String → ℚ := fun a b => if a = b then 100 else 0

/-- A scorer below every cutoff. -/
def lowScorer : String → String → ℚ := fun _ _ => 0

/-- A scorer with two candidates above the cutoff: equal strings score 100,
every other pair scores 90, so the best match must win over a merely
acceptable one. -/
def c7scorer : String → String → ℚ := fun a b => if a = b then 100 else 90

/-- Slots of a `rate_beer` intent with name and rating set, comment unset. -/
def c7slots : Slots := [("name", PyVal.str "Founders Porter"), ("rating", PyVal.num (9 / 2))]

/-- A catalog row for the rating-submission claim, carrying a pre-existing
user comment. -/
def c7row : Row :=
  ⟨7, "Founders Porter", "Founders Porter", Option.none, "Founders", "d", Option.none,
    Option.none, Option.none, Option.none, Option.none, some (PyVal.str "old")⟩

/-- A competing row whose name also scores above the 85 cutoff under
`c7scorer` but below the exact match. -/
def c7row2 : Row :=
  ⟨8, "Founders Porter Ale", "Founders Porter Ale", Option.none, "Other", "d", Option.none,
    Option.none, Option.none, Option.none, Option.none, Option.none⟩

/-- `c7row` after a successful rating submission: the user rating is set, the
absent comment leaves the old user comment untouched. -/
def c7updatedRow : Row :=
  ⟨7, "Founders Porter", "Founders Porter", Option.none, "Founders", "d", Option.none,
    Option.none, Option.none, Option.none, some (PyVal.num (9 / 2)), some (PyVal.str "old")⟩

/-- The full outcome of the concrete successful submission against the
two-row catalog: only the best-matching row is updated, the competitor is
untouched. -/
def c7out : RatingOutcome :=
  ⟨[c7updatedRow, c7row2], [c7updatedRow, c7row2],
    ⟨"Founders Porter", "Founders", PyVal.num (9 / 2), PyVal.none⟩⟩

/-- Applies the C7 theorem at concrete inputs: a scorer below the 85 cutoff
fails with an empty result; missing name fails; and against a catalog with
two candidates above the cutoff the best-scoring one is resolved and updated
while the competitor is untouched, with persist and payload as
characterized. -/
theorem c7_record_user_rating_witness :
    recordUserRating lowScorer c7slots [c7row] = Option.none ∧
    recordUserRating eqScorer [("rating", PyVal.num (9 / 2))] [c7row] = Option.none ∧
    (∃ matched, matched ∈ [c7row, c7row2].map Row.name ∧
      85 ≤ c7scorer (pyStr (slotsGet c7slots "name")) matched ∧
      (∀ n ∈ [c7row, c7row2].map Row.name,
        c7scorer (pyStr (slotsGet c7slots "name")) n
          ≤ c7scorer (pyStr (slotsGet c7slots "name")) matched) ∧
      c7out.rows = [c7row, c7row2].map (fun r =>
        if r.name = matched then
          { r with
              userRating := some (slotsGet c7slots "rating"),
              userComment :=
                if ¬ pyFalsy (slotsGet c7slots "comment") then
                  some (PyVal.str ("\"" ++ pyStr (slotsGet c7slots "comment") ++ "\""))
                else r.userComment }
        else r) ∧
      c7out.persisted = c7out.rows ∧
      c7out.payload.name = matched ∧
      c7out.payload.newRating = slotsGet c7slots "rating" ∧
      c7out.payload.comment = slotsGet c7slots "comment" ∧
      ∃ firstRow, firstRow ∈ [c7row, c7row2] ∧ firstRow.name = matched ∧
        c7out.payload.brewery = firstRow.brewery) :=
  ⟨(c7_record_user_rating_behavior lowScorer c7slots [c7row]).2.1
      (by
        intro n hn
        show (0 : ℚ) < 85
        norm_num),
   (c7_record_user_rating_behavior eqScorer [("rating", PyVal.num (9 / 2))] [c7row]).1
      (Or.inl (by decide)),
   (c7_record_user_rating_behavior c7scorer c7slots [c7row, c7row2]).2.2 c7out
      (by with_unfolding_all decide)⟩

end LlamAle
